import Mathlib

/-!
Verification of the tool-calling agent core of this repository
(`mlflow_demo/agent/agent.py`): the `_safe_parse_tool_arguments` argument
decoder, the `ToolCallingAgent` tool registry, `handle_tool_call`,
`call_and_run_tools` control loop, session tracking, and the
`predict_stream_local` streaming wrapper.

External collaborators are embedded by their contracts:
* Python's `json.loads` (standard library) is modelled by an executable
  recursive-descent JSON parser over `List Char` (`json_loads_chars`),
  covering the standard JSON grammar with whitespace skipping and the
  "Extra data" check at the end.  Numbers are modelled as scaled decimals
  `m * 10 ^ e`; the non-standard `NaN`/`Infinity` constants and lone
  surrogate escapes are not modelled (no claim depends on them).
* The streaming completion client plus the stream aggregator
  (`call_llm` composed with mlflow's `output_to_responses_items_stream`)
  is modelled, per the contract of spec sections 3 and 4.5, as an oracle
  that, given the full message history and the tool specs, produces
  exactly one aggregated message: assistant text or a function call
  (`ModelOutput`).  The `response.output_item.done` event for each
  appended item is the modelled event stream.
* mlflow's `ResponsesAgent` item constructors
  (`create_text_output_item`, `create_function_call_item`,
  `create_function_call_output_item`) are modelled as the corresponding
  Responses-format records.
-/

/-- Opening brace character, written via its code point. -/
def lbrace : Char := Char.ofNat 123

/-- Closing brace character, written via its code point. -/
def rbrace : Char := Char.ofNat 125

/-- JSON values as produced by `json.loads`: objects keep key order with
last-wins duplicate handling (Python `dict`), numbers are scaled decimals
`m * 10 ^ e10`. -/
inductive Json where
  | null : Json
  | bool (b : Bool) : Json
  | num (m : Int) (e10 : Int) : Json
  | str (s : String) : Json
  | arr (xs : List Json) : Json
  | obj (kvs : List (String × Json)) : Json

/-- Python `dict` insertion: replace the value of an existing key in place,
otherwise append at the end. -/
def insertKV {α : Type} : List (String × α) → String → α → List (String × α)
  | [], k, v => [(k, v)]
  | (k0, v0) :: rest, k, v =>
    if k0 = k then (k0, v) :: rest else (k0, v0) :: insertKV rest k v

/-- Build a Python `dict` from a pair list (duplicate keys: last value wins,
first position kept), as `dict(pairs)` does. -/
def mkDict {α : Type} (pairs : List (String × α)) : List (String × α) :=
  pairs.foldl (fun d kv => insertKV d kv.1 kv.2) []

/-- Python `dict` lookup on the representation above. -/
def lookupKV {α : Type} : List (String × α) → String → Option α
  | [], _ => none
  | (k0, v) :: rest, k => if k0 = k then some v else lookupKV rest k

/-- Last element of a list, `none` on the empty list (Python `l[-1]` guarded
by a non-emptiness check, and `l[-1]` itself on lists known non-empty). -/
def lastOpt {α : Type} : List α → Option α
  | [] => none
  | [a] => some a
  | _ :: b :: rest => lastOpt (b :: rest)

/-- JSON whitespace accepted by the `json.loads` scanner. -/
def json_ws (c : Char) : Bool :=
  c = ' ' || c = '\t' || c = '\n' || c = '\r'

/-- Skip JSON whitespace. -/
def skipWs (cs : List Char) : List Char := cs.dropWhile json_ws

/-- ASCII decimal digit test. -/
def isDigitChar (c : Char) : Bool := '0' ≤ c && c ≤ '9'

/-- Value of a hexadecimal digit. -/
def hexVal (c : Char) : Option Nat :=
  if '0' ≤ c && c ≤ '9' then some (c.toNat - 48)
  else if 'a' ≤ c && c ≤ 'f' then some (c.toNat - 87)
  else if 'A' ≤ c && c ≤ 'F' then some (c.toNat - 55)
  else none

/-- Numeric value of a digit string. -/
def digitsVal (ds : List Char) : Nat :=
  ds.foldl (fun a c => a * 10 + (c.toNat - 48)) 0

/-- Prepend a character to the pending string-body parse result. -/
def consStr (c : Char) : Option (List Char × List Char) → Option (List Char × List Char)
  | some (s, r) => some (c :: s, r)
  | none => none

/-- Parse the body of a JSON string after the opening quote, returning the
decoded characters and the rest of the input after the closing quote.
Escapes are decoded as `json.loads` does, including surrogate-pair `\u`
escapes (lone surrogates, unrepresentable in `Char`, are not modelled). -/
def parseStringBody : Nat → List Char → Option (List Char × List Char)
  | 0, _ => none
  | _ + 1, [] => none
  | fuel + 1, c :: rest =>
    if c = '"' then some ([], rest)
    else if c = '\\' then
      match rest with
      | [] => none
      | e :: rest2 =>
        if e = '"' then consStr '"' (parseStringBody fuel rest2)
        else if e = '\\' then consStr '\\' (parseStringBody fuel rest2)
        else if e = '/' then consStr '/' (parseStringBody fuel rest2)
        else if e = 'b' then consStr (Char.ofNat 8) (parseStringBody fuel rest2)
        else if e = 'f' then consStr (Char.ofNat 12) (parseStringBody fuel rest2)
        else if e = 'n' then consStr '\n' (parseStringBody fuel rest2)
        else if e = 'r' then consStr '\r' (parseStringBody fuel rest2)
        else if e = 't' then consStr '\t' (parseStringBody fuel rest2)
        else if e = 'u' then
          match rest2 with
          | h1 :: h2 :: h3 :: h4 :: rest3 =>
            match hexVal h1, hexVal h2, hexVal h3, hexVal h4 with
            | some a, some b, some c2, some d =>
              let n := ((a * 16 + b) * 16 + c2) * 16 + d
              if 0xD800 ≤ n ∧ n ≤ 0xDBFF then
                match rest3 with
                | u1 :: u2 :: g1 :: g2 :: g3 :: g4 :: rest4 =>
                  if u1 = '\\' ∧ u2 = 'u' then
                    match hexVal g1, hexVal g2, hexVal g3, hexVal g4 with
                    | some a2, some b2, some c3, some d2 =>
                      let n2 := ((a2 * 16 + b2) * 16 + c3) * 16 + d2
                      if 0xDC00 ≤ n2 ∧ n2 ≤ 0xDFFF then
                        consStr (Char.ofNat (0x10000 + (n - 0xD800) * 0x400 + (n2 - 0xDC00)))
                          (parseStringBody fuel rest4)
                      else none
                    | _, _, _, _ => none
                  else none
                | _ => none
              else consStr (Char.ofNat n) (parseStringBody fuel rest3)
            | _, _, _, _ => none
          | _ => none
        else none
    else if c.toNat < 32 then none
    else consStr c (parseStringBody fuel rest)

/-- Parse an optional exponent part `[eE][-+]?digits`; on a malformed
exponent the characters are left unconsumed, as the scanner's number regex
simply does not match them. -/
def parseExp (rest : List Char) : Int × List Char :=
  match rest with
  | [] => (0, rest)
  | c :: r =>
    if c = 'e' || c = 'E' then
      let sgnr : Int × List Char :=
        match r with
        | [] => (1, r)
        | s :: r2 => if s = '+' then (1, r2) else if s = '-' then (-1, r2) else (1, r)
      let ds := sgnr.2.takeWhile isDigitChar
      if ds = [] then (0, rest)
      else (sgnr.1 * (digitsVal ds : Int), sgnr.2.drop ds.length)
    else (0, rest)

/-- Finish a number parse: optional fraction and exponent after the integer
digits, yielding the scaled-decimal value. -/
def parseNumTail (neg : Bool) (intDs : List Char) (rest : List Char) : Option (Json × List Char) :=
  let fracr : List Char × List Char :=
    match rest with
    | [] => ([], rest)
    | c :: r =>
      if c = '.' then
        let ds := r.takeWhile isDigitChar
        if ds = [] then ([], rest) else (ds, r.drop ds.length)
      else ([], rest)
  let expr := parseExp fracr.2
  let m0 : Nat := digitsVal (intDs ++ fracr.1)
  let m : Int := if neg then -(m0 : Int) else (m0 : Int)
  some (Json.num m (expr.1 - (fracr.1.length : Int)), expr.2)

/-- Parse a JSON number per the scanner's regex
`(-?(0|[1-9]digits))(.digits)?([eE][-+]?digits)?`; `none` if the regex does
not match at the start of the input. -/
def parseNumber (cs : List Char) : Option (Json × List Char) :=
  let negr : Bool × List Char :=
    match cs with
    | c :: r => if c = '-' then (true, r) else (false, cs)
    | [] => (false, cs)
  match negr.2 with
  | [] => none
  | c :: r =>
    if c = '0' then parseNumTail negr.1 [c] r
    else if '1' ≤ c && c ≤ '9' then
      let ds := r.takeWhile isDigitChar
      parseNumTail negr.1 (c :: ds) (r.drop ds.length)
    else none

/-- Match a literal character sequence at the start of the input. -/
def litAfter : List Char → List Char → Option (List Char)
  | [], cs => some cs
  | _ :: _, [] => none
  | p :: ps, c :: cs => if c = p then litAfter ps cs else none

mutual

/-- Parse one JSON value (the `json.loads` scanner), returning the value and
the unconsumed rest.  Fuel bounds the recursion; every recursive call
consumes at least one input character, so `2 * length + 8` fuel suffices. -/
def parseVal : Nat → List Char → Option (Json × List Char)
  | 0, _ => none
  | _ + 1, [] => none
  | fuel + 1, c :: rest =>
    if c = '"' then
      match parseStringBody (rest.length + 1) rest with
      | some (s, r) => some (Json.str (String.mk s), r)
      | none => none
    else if c = lbrace then parseObjPairs fuel (skipWs rest)
    else if c = '[' then parseArrItems fuel (skipWs rest)
    else
      match litAfter ['n', 'u', 'l', 'l'] (c :: rest) with
      | some r => some (Json.null, r)
      | none =>
        match litAfter ['t', 'r', 'u', 'e'] (c :: rest) with
        | some r => some (Json.bool true, r)
        | none =>
          match litAfter ['f', 'a', 'l', 's', 'e'] (c :: rest) with
          | some r => some (Json.bool false, r)
          | none => parseNumber (c :: rest)

/-- Parse the inside of a JSON object after `{` and whitespace: either `}`
or a first `"key": value` followed by the member tail. -/
def parseObjPairs : Nat → List Char → Option (Json × List Char)
  | 0, _ => none
  | _ + 1, [] => none
  | fuel + 1, c :: rest =>
    if c = rbrace then some (Json.obj [], rest)
    else if c = '"' then
      match parseStringBody (rest.length + 1) rest with
      | none => none
      | some (key, r1) =>
        match skipWs r1 with
        | ':' :: r2 =>
          match parseVal fuel (skipWs r2) with
          | none => none
          | some (v, r3) => parseObjTail fuel [(String.mk key, v)] (skipWs r3)
        | _ => none
    else none

/-- Parse further object members: `,"key": value` repeated, closed by `}`.
The accumulated pairs become a Python `dict` (last duplicate wins). -/
def parseObjTail : Nat → List (String × Json) → List Char → Option (Json × List Char)
  | 0, _, _ => none
  | _ + 1, _, [] => none
  | fuel + 1, pairs, c :: rest =>
    if c = rbrace then some (Json.obj (mkDict pairs), rest)
    else if c = ',' then
      match skipWs rest with
      | q :: r1 =>
        if q = '"' then
          match parseStringBody (r1.length + 1) r1 with
          | none => none
          | some (key, r2) =>
            match skipWs r2 with
            | ':' :: r3 =>
              match parseVal fuel (skipWs r3) with
              | none => none
              | some (v, r4) => parseObjTail fuel (pairs ++ [(String.mk key, v)]) (skipWs r4)
            | _ => none
        else none
      | [] => none
    else none

/-- Parse the inside of a JSON array after `[` and whitespace: either `]` or
a first value followed by the element tail. -/
def parseArrItems : Nat → List Char → Option (Json × List Char)
  | 0, _ => none
  | _ + 1, [] => none
  | fuel + 1, c :: rest =>
    if c = ']' then some (Json.arr [], rest)
    else
      match parseVal fuel (c :: rest) with
      | none => none
      | some (v, r1) => parseArrTail fuel [v] (skipWs r1)

/-- Parse further array elements: `, value` repeated, closed by `]`. -/
def parseArrTail : Nat → List Json → List Char → Option (Json × List Char)
  | 0, _, _ => none
  | _ + 1, _, [] => none
  | fuel + 1, items, c :: rest =>
    if c = ']' then some (Json.arr items, rest)
    else if c = ',' then
      match parseVal fuel (skipWs rest) with
      | none => none
      | some (v, r1) => parseArrTail fuel (items ++ [v]) (skipWs r1)
    else none

end

/-- `json.loads` on a character list: skip whitespace, parse one value, and
reject trailing non-whitespace ("Extra data").  `none` models a raised
`json.JSONDecodeError`. -/
def json_loads_chars (cs : List Char) : Option Json :=
  match parseVal (2 * cs.length + 8) (skipWs cs) with
  | some (j, rest) => if skipWs rest = [] then some j else none
  | none => none

/-- Python `str.strip()` whitespace (ASCII subset; the claims' inputs use no
exotic Unicode whitespace). -/
def py_isspace (c : Char) : Bool :=
  c = ' ' || c = '\t' || c = '\n' || c = '\r' || c = Char.ofNat 11 || c = Char.ofNat 12

/-- Python `str.strip()`. -/
def pyStrip (cs : List Char) : List Char :=
  ((cs.dropWhile py_isspace).reverse.dropWhile py_isspace).reverse

/-- Python `"}{" in s`. -/
def contains_brace : List Char → Bool
  | [] => false
  | [_] => false
  | a :: b :: rest => (a = rbrace && b = lbrace) || contains_brace (b :: rest)

/-- Prepend a character onto the first fragment of a split result. -/
def consHeadFrag (a : Char) : List (List Char) → List (List Char)
  | [] => [[a]]
  | f :: fs => (a :: f) :: fs

/-- Python `s.split("}{")`: split on non-overlapping occurrences of the
two-character boundary, left to right. -/
def py_split_brace : List Char → List (List Char)
  | [] => [[]]
  | [a] => [[a]]
  | a :: b :: rest =>
    if a = rbrace && b = lbrace then [] :: py_split_brace rest
    else consHeadFrag a (py_split_brace (b :: rest))

/-- Python `s.replace("}{", "},{")`: replace non-overlapping occurrences,
left to right. -/
def py_replace_brace : List Char → List Char
  | [] => []
  | [a] => [a]
  | a :: b :: rest =>
    if a = rbrace && b = lbrace then rbrace :: ',' :: lbrace :: py_replace_brace rest
    else a :: py_replace_brace (b :: rest)

/-- The depth-counter scan of `_safe_parse_tool_arguments`: walk the string,
`{` increments and `}` decrements the depth, and the first `}` that brings
the depth to exactly zero sets `end = i + 1`; `none` when no such position
is found (Python `end = -1`). -/
def brace_scan : List Char → Int → Nat → Option Nat
  | [], _, _ => none
  | c :: rest, depth, i =>
    if c = lbrace then brace_scan rest (depth + 1) (i + 1)
    else if c = rbrace then
      if depth - 1 = 0 then some (i + 1) else brace_scan rest (depth - 1) (i + 1)
    else brace_scan rest depth (i + 1)

/-- The `end` index computed by the depth-counter fallback. -/
def brace_scan_end (s : List Char) : Option Nat := brace_scan s 0 0

/-- The runtime type of the raw `arguments` payload handed to
`_safe_parse_tool_arguments`: a mapping, a string, or anything else. -/
inductive RawArgs where
  | dict (d : List (String × Json)) : RawArgs
  | str (s : String) : RawArgs
  | other : RawArgs

/-- `_safe_parse_tool_arguments` from `agent.py`: mappings pass through
unchanged, non-strings become `{}`, strings are stripped and parsed with
`json.loads`; on failure the fallbacks run in order: (a) split on the
literal `"}{"` boundary and parse the last fragment re-prefixed with `{`;
(b) wrap the whole string as a JSON array by replacing `"}{"` with `"},{"`
and take the last element when the result is a non-empty list; (c) extract
the first balanced top-level brace pair found by the depth counter.  If all
fail, the result is an `ArgumentParseError` (a raised
`json.JSONDecodeError`) carrying the stripped string. -/
def _safe_parse_tool_arguments (raw_args : RawArgs) : Except String Json :=
  match raw_args with
  | .dict d => .ok (.obj d)
  | .other => .ok (.obj [])
  | .str raw =>
    let s : List Char := pyStrip raw.data
    match json_loads_chars s with
    | some j => .ok j
    | none =>
      let tryA : Option Json :=
        if contains_brace s then
          json_loads_chars (lbrace :: (lastOpt (py_split_brace s)).getD [])
        else none
      match tryA with
      | some j => .ok j
      | none =>
        let tryB : Option Json :=
          if contains_brace s then
            match json_loads_chars ('[' :: (py_replace_brace s ++ [']'])) with
            | some (Json.arr xs) => lastOpt xs
            | _ => none
          else none
        match tryB with
        | some j => .ok j
        | none =>
          let tryC : Option Json :=
            match brace_scan_end s with
            | some e => json_loads_chars (s.take e)
            | none => none
          match tryC with
          | some j => .ok j
          | none => .error (String.mk s)

/-- A message / response item in the conversation history, as the loop sees
it: a Python dict read through `.get`, so every field is optional.  `type`
is `"message"`, `"function_call"` or `"function_call_output"` for loop-made
items; `content` is the text of the single `output_text` part of a
`"message"` item. -/
structure Msg where
  role : Option String := none
  type : Option String := none
  id : Option String := none
  call_id : Option String := none
  name : Option String := none
  arguments : Option RawArgs := none
  output : Option String := none
  content : Option String := none

/-- A registered tool (`ToolInfo` in `agent.py`): name, JSON spec surfaced
to the model, and the execution function.  `exec_fn` takes the keyword
mapping and returns the (stringified) result; per `create_tool_info`, a
tool-level failure is returned as the error string, not raised. -/
structure ToolInfo where
  name : String
  spec : Json
  exec_fn : List (String × Json) → String

/-- The `_tools_dict = {tool.name: tool for tool in tools}` comprehension of
`ToolCallingAgent.__init__`: a name-keyed Python dict; a duplicated name
silently overwrites the earlier entry. -/
def build_tools_dict (tools : List ToolInfo) : List (String × ToolInfo) :=
  tools.foldl (fun d t => insertKV d t.name t) []

/-- `get_tool_specs`: the spec of every registered tool, in dict value
order. -/
def get_tool_specs (tools_dict : List (String × ToolInfo)) : List Json :=
  tools_dict.map (fun p => p.2.spec)

/-- `create_text_output_item` (mlflow `ResponsesAgent` helper): a terminal
assistant message item with one `output_text` part. -/
def create_text_output_item (text : String) (id : String) : Msg :=
  { role := some ("assistant"), type := some ("message"), id := some id,
    content := some text }

/-- `create_function_call_item` (mlflow `ResponsesAgent` helper): a
function-call request item; note it carries no `role`. -/
def create_function_call_item (id : String) (call_id : String) (name : String)
    (arguments : RawArgs) : Msg :=
  { type := some ("function_call"), id := some id, call_id := some call_id,
    name := some name, arguments := some arguments }

/-- `create_function_call_output_item` (mlflow `ResponsesAgent` helper): a
tool-result item; it carries no `role`. -/
def create_function_call_output_item (call_id : String) (output : String) : Msg :=
  { type := some ("function_call_output"), call_id := some call_id,
    output := some output }

/-- Errors that can propagate out of tool-call handling: an unparseable
argument payload (raised `json.JSONDecodeError`, carrying the stripped
string), a missing dict key (Python `KeyError`), a tool name absent from
the registry (`KeyError` on `_tools_dict`, the spec's `UnknownToolError`),
a parsed argument value that is not a mapping (Python `TypeError` on
`**args`), and `messages[-1]` on an empty history (`IndexError`). -/
inductive AgentError where
  | ArgumentParseError (raw : String) : AgentError
  | KeyError (key : String) : AgentError
  | UnknownToolError (name : String) : AgentError
  | BadArguments : AgentError
  | IndexError : AgentError
deriving DecidableEq

/-- `ToolCallingAgent.handle_tool_call`: parse the raw arguments (default
`{}` when the field is absent), look the tool up, execute it, and append
exactly one `function_call_output` item carrying the stringified result to
the running message history.  Returns the appended item (the yielded
`response.output_item.done` event payload) and the extended history. -/
def handle_tool_call (tools_dict : List (String × ToolInfo)) (tool_call : Msg)
    (messages : List Msg) : Except AgentError (Msg × List Msg) :=
  match _safe_parse_tool_arguments (tool_call.arguments.getD (RawArgs.dict [])) with
  | .error s => .error (.ArgumentParseError s)
  | .ok args =>
    match tool_call.name with
    | none => .error (.KeyError ("name"))
    | some tname =>
      match lookupKV tools_dict tname with
      | none => .error (.UnknownToolError tname)
      | some tool =>
        match args with
        | Json.obj kwargs =>
          match tool_call.call_id with
          | none => .error (.KeyError ("call_id"))
          | some cid =>
            let item := create_function_call_output_item cid (tool.exec_fn kwargs)
            .ok (item, messages ++ [item])
        | _ => .error .BadArguments

/-- One aggregated model turn, per the streaming contract of spec sections
3 and 4.5: the chunks of one completion call are aggregated into exactly
one message, either assistant text or a completed function call. -/
inductive ModelOutput where
  | text (text : String) (id : String) : ModelOutput
  | functionCall (id : String) (call_id : String) (name : String)
      (arguments : RawArgs) : ModelOutput

/-- The message appended to the history for one aggregated model turn. -/
def toMsg : ModelOutput → Msg
  | .text t i => create_text_output_item t i
  | .functionCall i cid n args => create_function_call_item i cid n args

/-- The loop's dispatch on the last message of the history: an assistant
`role` stops the turn, a `function_call` type goes to tool handling, and
anything else triggers a new model call. -/
inductive Dispatch where
  | halt : Dispatch
  | tool : Dispatch
  | modelCall : Dispatch
deriving DecidableEq

/-- The `if role == "assistant" / elif type == "function_call" / else`
dispatch of `call_and_run_tools`, checked in source order. -/
def classify (m : Msg) : Dispatch :=
  if m.role = some ("assistant") then .halt
  else if m.type = some ("function_call") then .tool
  else .modelCall

/-- The `response.output_item.done` events yielded by the loop (text deltas
of the model stream are abstracted away; each aggregated item yields one
done event). -/
inductive Event where
  | output_item_done (item : Msg) : Event

/-- The fixed text of the synthesized cap-reached message. -/
def MAX_ITER_TEXT : String := "Max iterations reached. Stopping."

/-- The synthesized terminal assistant item yielded on reaching the
iteration cap (its `id` is a fresh UUID in the source, abstracted here as a
fixed placeholder; no claim depends on it). -/
def max_iter_item : Msg := create_text_output_item MAX_ITER_TEXT ("max-iter-uuid")

/-- Result of one `call_and_run_tools` generator run: the yielded events,
the final message history, and whether the loop returned early because the
last message was an assistant message (`early = true`) as opposed to
exhausting its iteration bound. -/
structure RunResult where
  events : List Event
  messages : List Msg
  early : Bool

/-- `ToolCallingAgent.call_and_run_tools`: `for _ in range(max_iter)`,
dispatching on `messages[-1]` — assistant role returns, a pending
`function_call` is resolved by `handle_tool_call` (appending exactly one
tool-result item), and otherwise the model is called with the full history
plus the tool specs and its single aggregated message is appended.  When
the loop exhausts its iterations it yields the synthesized
"Max iterations reached. Stopping." item (which is not appended to the
history).  The model is an oracle `model : history → specs → ModelOutput`,
covering every possible sequence of model responses. -/
def call_and_run_tools (tools_dict : List (String × ToolInfo))
    (model : List Msg → List Json → ModelOutput) :
    Nat → List Msg → Except AgentError RunResult
  | 0, messages => .ok ⟨[Event.output_item_done max_iter_item], messages, false⟩
  | fuel + 1, messages =>
    match lastOpt messages with
    | none => .error .IndexError
    | some last_msg =>
      match classify last_msg with
      | .halt => .ok ⟨[], messages, true⟩
      | .tool =>
        match handle_tool_call tools_dict last_msg messages with
        | .error e => .error e
        | .ok (item, messages2) =>
          match call_and_run_tools tools_dict model fuel messages2 with
          | .error e => .error e
          | .ok r => .ok ⟨Event.output_item_done item :: r.events, r.messages, r.early⟩
      | .modelCall =>
        let newMsg := toMsg (model messages (get_tool_specs tools_dict))
        match call_and_run_tools tools_dict model fuel (messages ++ [newMsg]) with
        | .error e => .error e
        | .ok r => .ok ⟨Event.output_item_done newMsg :: r.events, r.messages, r.early⟩

/-- The session-tracking fields of `ToolCallingAgent`. -/
structure SessionState where
  current_session_id : Option String
  current_user_id : Option String
  conversation_history : List Msg

/-- The session fields right after `__init__`. -/
def init_session_state : SessionState := ⟨none, none, []⟩

/-- `ToolCallingAgent.start_new_session`: pick the effective session id
(`session_id if session_id else str(uuid4())` — Python truthiness, so an
empty string also triggers generation; `gen` stands for the freshly
generated UUID), update the user id only when one is truthy, clear the
conversation history, and return the new session id. -/
def start_new_session (st : SessionState) (session_id : Option String)
    (user_id : Option String) (gen : String) : String × SessionState :=
  let sid :=
    match session_id with
    | some s => if s ≠ "" then s else gen
    | none => gen
  let uid :=
    match user_id with
    | some u => if u ≠ "" then some u else st.current_user_id
    | none => st.current_user_id
  (sid, ⟨some sid, uid, []⟩)

/-- `ToolCallingAgent.get_current_session_id`. -/
def get_current_session_id (st : SessionState) : Option String :=
  st.current_session_id

/-- A streamed event of `predict_stream_local` (its yielded dicts):
incremental text, a tool-call notification, or one of the two terminal
events. -/
inductive LocalEvent where
  | token (content : String) : LocalEvent
  | tool_call (name : Option String) (arguments : Option RawArgs) : LocalEvent
  | done (trace_id : Option String) : LocalEvent
  | error (error : String) : LocalEvent

/-- An event of the inner `predict_stream` as consumed by
`predict_stream_local`: a `response.output_item.done` item, a
`response.content_part.delta` text delta, or any other event type. -/
inductive InnerEvent where
  | output_item_done (item : Msg) : InnerEvent
  | content_part_delta (text : Option String) : InnerEvent
  | other : InnerEvent

/-- The per-item rendering of `predict_stream_local`: `function_call` items
become `tool_call` events, `function_call_output` items are skipped,
`message` items yield one token per `output_text` part. -/
def render_local_item (m : Msg) : List LocalEvent :=
  if m.type = some ("function_call") then [.tool_call m.name m.arguments]
  else if m.type = some ("function_call_output") then []
  else if m.type = some ("message") then
    match m.content with
    | some t => [.token t]
    | none => []
  else []

/-- The per-event rendering of `predict_stream_local`; a delta only yields
a token when its text is truthy (non-empty). -/
def render_inner : InnerEvent → List LocalEvent
  | .output_item_done m => render_local_item m
  | .content_part_delta (some t) => if t = "" then [] else [.token t]
  | .content_part_delta none => []
  | .other => []

/-- The concatenated rendering of a list of inner-stream events. -/
def renderAll : List InnerEvent → List LocalEvent
  | [] => []
  | e :: rest => render_inner e ++ renderAll rest

/-- The terminal event of a turn: `done` with the trace id on normal
completion, `error` with the exception text otherwise. -/
def terminalOf (ending : Option String) (trace_id : Option String) : LocalEvent :=
  match ending with
  | none => .done trace_id
  | some e => .error e

/-- `ToolCallingAgent.predict_stream_local`: the whole turn body runs
inside one `try`.  `inner` is the list of inner-stream events processed
before the turn either finished normally (`ending = none`) or raised
(`ending = some e`, the exception text); `trace_id` is the trace id
captured from the active span (with its fallback already applied).  On
normal completion the final yield is `{type: "done", trace_id}`; when any
exception escapes, the `except` clause yields `{type: "error", error}`
instead. -/
def predict_stream_local (inner : List InnerEvent) (ending : Option String)
    (trace_id : Option String) : List LocalEvent :=
  renderAll inner ++ [terminalOf ending trace_id]

/-- Terminal events of the streaming contract. -/
def isTerminalEvent : LocalEvent → Bool
  | .done _ => true
  | .error _ => true
  | _ => false

/-- Scanner state for the tool-call pairing invariant: `clean` (no
unresolved call), `pending cid` (the previous message is a `function_call`
with the given `call_id`, so the next message must be its matching
`function_call_output`), or `bad` (the pairing discipline was violated). -/
inductive ChainSt where
  | clean : ChainSt
  | pending (cid : Option String) : ChainSt
  | bad : ChainSt
deriving DecidableEq

/-- One step of the pairing scanner. -/
def chainStep (st : ChainSt) (m : Msg) : ChainSt :=
  match st with
  | .bad => .bad
  | .pending cid =>
    if m.type = some ("function_call_output") ∧ m.call_id = cid then .clean else .bad
  | .clean =>
    if m.type = some ("function_call") then .pending m.call_id
    else if m.type = some ("function_call_output") then .bad
    else .clean

/-- Scan a whole history for the pairing discipline. -/
def chainScan (msgs : List Msg) : ChainSt := msgs.foldl chainStep .clean

/-- The pairing property: every `function_call_output` immediately follows
a `function_call` whose `call_id` it matches, with nothing interleaved
(a trailing unresolved `function_call` is allowed). -/
def wfChain (msgs : List Msg) : Prop := chainScan msgs ≠ ChainSt.bad

/-- Whether the scanner state is `pending`. -/
def isPendingSt : ChainSt → Bool
  | .pending _ => true
  | _ => false

/-- No unresolved `function_call` left at the end of the history. -/
def noPendingCall (msgs : List Msg) : Prop :=
  isPendingSt (chainScan msgs) = false

/-- A history with no tool-call traffic yet (e.g. system and user
messages), as handed to the loop at the start of a turn. -/
def plainHistory (msgs : List Msg) : Prop :=
  ∀ m ∈ msgs, m.type ≠ some ("function_call") ∧ m.type ≠ some ("function_call_output")

/-- No message is simultaneously assistant-roled and a `function_call`
(true of every item the loop appends). -/
def assistantNotFc (msgs : List Msg) : Prop :=
  ∀ m ∈ msgs, ¬(m.role = some ("assistant") ∧ m.type = some ("function_call"))

/-- A plain user message seeding the histories of the concrete scenarios. -/
def user0 : Msg := { role := some ("user"), content := some ("question") }

/-- The `lookup` tool of spec scenario B. -/
def lookup_tool : ToolInfo :=
  ⟨"lookup", Json.obj [("name", Json.str ("lookup"))], fun _ => "KC passes 60%"⟩

/-- Registry holding just the `lookup` tool. -/
def exB_tools : List (String × ToolInfo) := build_tools_dict [lookup_tool]

/-- Scenario B model oracle: never returns assistant text, always requests
the same tool call. -/
def exB_model : List Msg → List Json → ModelOutput :=
  fun _ _ => .functionCall ("fc-id") ("call-1") ("lookup")
    (.str ("\x7b\"team\": \"KC\"\x7d"))

/-- The function-call item that `exB_model` makes the loop append. -/
def exB_fc : Msg :=
  create_function_call_item ("fc-id") ("call-1") ("lookup")
    (RawArgs.str ("\x7b\"team\": \"KC\"\x7d"))

/-- The tool-result item produced by resolving `exB_fc`. -/
def exB_out : Msg := create_function_call_output_item ("call-1") ("KC passes 60%")

/-- A model oracle whose function-call arguments defeat every parsing
strategy. -/
def bad_model : List Msg → List Json → ModelOutput :=
  fun _ _ => .functionCall ("fc-id") ("call-1") ("lookup") (.str ("not json"))

/-- A model oracle that immediately answers with assistant text. -/
def text_model : List Msg → List Json → ModelOutput :=
  fun _ _ => .text ("Done.") ("t-id")

/-- The assistant item appended by `text_model`. -/
def text_item : Msg := create_text_output_item ("Done.") ("t-id")

/-- A tool that reports failure by returning an error string (scenario C). -/
def fail_tool : ToolInfo :=
  ⟨"failing", Json.obj [], fun _ => "ERROR: unknown team code"⟩

/-- First of two tools sharing the name `dup`. -/
def dup_tool_a : ToolInfo := ⟨"dup", Json.str ("spec-one"), fun _ => "one"⟩

/-- Second of two tools sharing the name `dup`. -/
def dup_tool_b : ToolInfo := ⟨"dup", Json.str ("spec-two"), fun _ => "two"⟩

/-- The last descriptor in the list carrying the given name, if any. -/
def lastWithName : List ToolInfo → String → Option ToolInfo
  | [], _ => none
  | t :: ts, k =>
    match lastWithName ts k with
    | some u => some u
    | none => if t.name = k then some t else none

/-- `lastOpt` of a history extended by one message. -/
theorem lastOpt_concat {α : Type} (l : List α) (a : α) : lastOpt (l ++ [a]) = some a := by
  induction l with
  | nil => rfl
  | cons x xs ih =>
    cases xs with
    | nil => rfl
    | cons y ys => exact ih

/-- The last element belongs to the list. -/
theorem lastOpt_mem {α : Type} : ∀ (l : List α) (a : α), lastOpt l = some a → a ∈ l
  | [], _, h => by exact Option.noConfusion h
  | [x], a, h => by
    have hx : x = a := by simpa [lastOpt] using h
    subst hx
    exact List.mem_singleton_self x
  | x :: y :: rest, a, h => by
    have hmem := lastOpt_mem (y :: rest) a h
    exact List.mem_cons_of_mem x hmem

/-- Prepending preserves a known last element. -/
theorem lastOpt_cons_of {α : Type} (x : α) {l : List α} {a : α}
    (h : lastOpt l = some a) : lastOpt (x :: l) = some a := by
  cases l with
  | nil => exact Option.noConfusion h
  | cons b t => exact h

/-- Scanning a history extended by one message. -/
theorem chainScan_append (msgs : List Msg) (m : Msg) :
    chainScan (msgs ++ [m]) = chainStep (chainScan msgs) m := by
  simp [chainScan, List.foldl_append]

/-- A `pending` scan state means the history ends in the corresponding
unresolved `function_call`. -/
theorem chainScan_pending_last (msgs : List Msg) (cid : Option String)
    (h : chainScan msgs = .pending cid) :
    ∃ m, lastOpt msgs = some m ∧ m.type = some ("function_call") ∧ m.call_id = cid := by
  induction msgs using List.reverseRecOn with
  | nil => exact ChainSt.noConfusion (h : ChainSt.clean = ChainSt.pending cid)
  | append_singleton l a _ =>
    rw [chainScan_append] at h
    cases hst : chainScan l with
    | bad => rw [hst] at h; exact ChainSt.noConfusion (h : ChainSt.bad = ChainSt.pending cid)
    | pending c =>
      rw [hst] at h
      simp only [chainStep] at h
      split at h
      · exact ChainSt.noConfusion h
      · exact ChainSt.noConfusion h
    | clean =>
      rw [hst] at h
      simp only [chainStep] at h
      split at h
      case isTrue htype =>
        cases h
        exact ⟨a, lastOpt_concat l a, htype, rfl⟩
      case isFalse htype =>
        split at h
        · exact ChainSt.noConfusion h
        · exact ChainSt.noConfusion h

/-- Conversely, a well-formed history ending in a `function_call` scans to
the matching `pending` state. -/
theorem chainScan_last_fc (msgs : List Msg) (m : Msg)
    (hl : lastOpt msgs = some m) (ht : m.type = some ("function_call"))
    (hwf : chainScan msgs ≠ .bad) : chainScan msgs = .pending m.call_id := by
  induction msgs using List.reverseRecOn with
  | nil => exact Option.noConfusion hl
  | append_singleton l a _ =>
    rw [lastOpt_concat] at hl
    injection hl with hl2
    subst hl2
    rw [chainScan_append] at hwf ⊢
    cases hst : chainScan l with
    | bad =>
      rw [hst] at hwf
      exact absurd (show chainStep ChainSt.bad a = ChainSt.bad from rfl) hwf
    | pending c =>
      rw [hst] at hwf
      have hb : chainStep (ChainSt.pending c) a = ChainSt.bad := by
        have hno : ¬(a.type = some ("function_call_output") ∧ a.call_id = c) := by
          intro hco
          rw [ht] at hco
          exact absurd hco.1 (by decide)
        simp [chainStep, hno]
      exact absurd hb hwf
    | clean =>
      simp [chainStep, ht]

/-- `render_inner` yields no terminal events. -/
theorem render_inner_not_terminal (e : InnerEvent) (x : LocalEvent)
    (hx : x ∈ render_inner e) : isTerminalEvent x = false := by
  cases e with
  | output_item_done m =>
    simp only [render_inner, render_local_item] at hx
    split at hx
    · simp only [List.mem_singleton] at hx
      subst hx
      rfl
    · split at hx
      · exact absurd hx (List.not_mem_nil x)
      · split at hx
        · split at hx
          · simp only [List.mem_singleton] at hx
            subst hx
            rfl
          · exact absurd hx (List.not_mem_nil x)
        · exact absurd hx (List.not_mem_nil x)
  | content_part_delta t =>
    cases t with
    | none => exact absurd hx (List.not_mem_nil x)
    | some s =>
      simp only [render_inner] at hx
      split at hx
      · exact absurd hx (List.not_mem_nil x)
      · simp only [List.mem_singleton] at hx
        subst hx
        rfl
  | other => exact absurd hx (List.not_mem_nil x)

/-- The rendered inner stream contains no terminal events at all. -/
theorem renderAll_filter_terminal (inner : List InnerEvent) :
    (renderAll inner).filter isTerminalEvent = [] := by
  induction inner with
  | nil => rfl
  | cons e rest ih =>
    simp only [renderAll, List.filter_append, ih, List.append_nil]
    rw [List.filter_eq_nil_iff]
    intro a ha
    simp [render_inner_not_terminal e a ha]

/-- The terminal event really is terminal. -/
theorem terminalOf_terminal (ending : Option String) (tid : Option String) :
    isTerminalEvent (terminalOf ending tid) = true := by
  cases ending <;> rfl

/-- A `halt` dispatch means the last message is assistant-roled. -/
theorem classify_halt {m : Msg} (h : classify m = .halt) :
    m.role = some ("assistant") := by
  by_cases h1 : m.role = some ("assistant")
  · exact h1
  · by_cases h2 : m.type = some ("function_call") <;> simp [classify, h1, h2] at h

/-- A `tool` dispatch means a non-assistant message of type
`function_call`. -/
theorem classify_tool {m : Msg} (h : classify m = .tool) :
    m.role ≠ some ("assistant") ∧ m.type = some ("function_call") := by
  by_cases h1 : m.role = some ("assistant")
  · simp [classify, h1] at h
  · by_cases h2 : m.type = some ("function_call")
    · exact ⟨h1, h2⟩
    · simp [classify, h1, h2] at h

/-- A `modelCall` dispatch means neither an assistant message nor a
pending function call. -/
theorem classify_model {m : Msg} (h : classify m = .modelCall) :
    m.role ≠ some ("assistant") ∧ m.type ≠ some ("function_call") := by
  by_cases h1 : m.role = some ("assistant")
  · simp [classify, h1] at h
  · by_cases h2 : m.type = some ("function_call")
    · simp [classify, h1, h2] at h
    · exact ⟨h1, h2⟩

/-- Shape of a successful `handle_tool_call`: the returned history is the
input history with exactly the returned tool-result item appended, and
that item is a `function_call_output` carrying the call id of the handled
`function_call`. -/
theorem handle_tool_call_ok {tools_dict : List (String × ToolInfo)}
    {tool_call : Msg} {messages : List Msg} {item : Msg} {messages2 : List Msg}
    (h : handle_tool_call tools_dict tool_call messages = .ok (item, messages2)) :
    messages2 = messages ++ [item] ∧
    ∃ cid result, tool_call.call_id = some cid ∧
      item = create_function_call_output_item cid result := by
  unfold handle_tool_call at h
  split at h
  · exact Except.noConfusion h
  · split at h
    · exact Except.noConfusion h
    · split at h
      · exact Except.noConfusion h
      · split at h
        · split at h
          · exact Except.noConfusion h
          case _ cid hcid =>
            injection h with h2
            injection h2 with hitem hmsgs
            subst hitem
            subst hmsgs
            exact ⟨rfl, cid, _, hcid, rfl⟩
        · exact Except.noConfusion h

/-- Every aggregated model message is an assistant text item or a
function-call item; in particular it is never a `function_call_output` and
never an assistant-roled `function_call`. -/
theorem toMsg_shape (o : ModelOutput) :
    (toMsg o).type ≠ some ("function_call_output") ∧
    ¬((toMsg o).role = some ("assistant") ∧ (toMsg o).type = some ("function_call")) := by
  cases o with
  | text t i =>
    refine ⟨by simp [toMsg, create_text_output_item], ?_⟩
    intro hco
    exact absurd hco.2 (by simp [toMsg, create_text_output_item])
  | functionCall i cid n args =>
    refine ⟨by simp [toMsg, create_function_call_item], ?_⟩
    intro hco
    exact absurd hco.1 (by simp [toMsg, create_function_call_item])

/-- Zero iterations left: the loop body never ran (or just finished its
last iteration), so only the synthesized cap message is yielded. -/
theorem call_run_zero (td : List (String × ToolInfo))
    (model : List Msg → List Json → ModelOutput) (msgs : List Msg) :
    call_and_run_tools td model 0 msgs =
      .ok ⟨[Event.output_item_done max_iter_item], msgs, false⟩ := rfl

/-- `messages[-1]` on an empty history raises. -/
theorem call_run_none (td : List (String × ToolInfo))
    (model : List Msg → List Json → ModelOutput) (fuel : Nat) (msgs : List Msg)
    (hl : lastOpt msgs = none) :
    call_and_run_tools td model (fuel + 1) msgs = .error .IndexError := by
  conv_lhs => rw [call_and_run_tools]
  simp only [hl]

/-- Assistant-roled last message: the generator returns immediately. -/
theorem call_run_halt (td : List (String × ToolInfo))
    (model : List Msg → List Json → ModelOutput) (fuel : Nat) (msgs : List Msg)
    (last : Msg) (hl : lastOpt msgs = some last) (hc : classify last = .halt) :
    call_and_run_tools td model (fuel + 1) msgs = .ok ⟨[], msgs, true⟩ := by
  conv_lhs => rw [call_and_run_tools]
  simp only [hl, hc]

/-- Pending `function_call` last message: resolve it with
`handle_tool_call` and continue on the extended history. -/
theorem call_run_tool (td : List (String × ToolInfo))
    (model : List Msg → List Json → ModelOutput) (fuel : Nat) (msgs : List Msg)
    (last : Msg) (hl : lastOpt msgs = some last) (hc : classify last = .tool) :
    call_and_run_tools td model (fuel + 1) msgs =
      (match handle_tool_call td last msgs with
       | .error e => .error e
       | .ok (item, messages2) =>
         match call_and_run_tools td model fuel messages2 with
         | .error e => .error e
         | .ok r => .ok ⟨Event.output_item_done item :: r.events, r.messages, r.early⟩) := by
  conv_lhs => rw [call_and_run_tools]
  simp only [hl, hc]

/-- Any other last message: call the model with the full history plus the
tool specs, append its single aggregated message, and continue. -/
theorem call_run_model_step (td : List (String × ToolInfo))
    (model : List Msg → List Json → ModelOutput) (fuel : Nat) (msgs : List Msg)
    (last : Msg) (hl : lastOpt msgs = some last) (hc : classify last = .modelCall) :
    call_and_run_tools td model (fuel + 1) msgs =
      (match call_and_run_tools td model fuel
          (msgs ++ [toMsg (model msgs (get_tool_specs td))]) with
       | .error e => .error e
       | .ok r => .ok ⟨Event.output_item_done (toMsg (model msgs (get_tool_specs td))) :: r.events,
           r.messages, r.early⟩) := by
  conv_lhs => rw [call_and_run_tools]
  simp only [hl, hc]

/-- Bounds and terminal shape of every successful loop run: at most `fuel`
messages are appended and at most `fuel + 1` events yielded; a run that
exhausted its iterations ends with the synthesized cap event, and an early
return means the history ends in an assistant message. -/
theorem run_total_spec : ∀ (fuel : Nat) (td : List (String × ToolInfo))
    (model : List Msg → List Json → ModelOutput) (msgs : List Msg) (r : RunResult),
    call_and_run_tools td model fuel msgs = .ok r →
    r.messages.length ≤ msgs.length + fuel ∧
    r.events.length ≤ fuel + 1 ∧
    (r.early = false → lastOpt r.events = some (Event.output_item_done max_iter_item)) ∧
    (r.early = true → ∃ lm, lastOpt r.messages = some lm ∧ lm.role = some ("assistant")) := by
  intro fuel
  induction fuel with
  | zero =>
    intro td model msgs r h
    rw [call_run_zero] at h
    injection h with h2
    subst h2
    exact ⟨Nat.le_refl _, Nat.le_refl _, fun _ => rfl, fun hearly => absurd hearly (by simp)⟩
  | succ fuel ih =>
    intro td model msgs r h
    cases hl : lastOpt msgs with
    | none =>
      rw [call_run_none td model fuel msgs hl] at h
      exact Except.noConfusion h
    | some last =>
      cases hc : classify last with
      | halt =>
        rw [call_run_halt td model fuel msgs last hl hc] at h
        injection h with h2
        subst h2
        exact ⟨Nat.le_add_right _ _, Nat.zero_le _,
          fun hfalse => absurd hfalse (by simp),
          fun _ => ⟨last, hl, classify_halt hc⟩⟩
      | tool =>
        rw [call_run_tool td model fuel msgs last hl hc] at h
        cases hh : handle_tool_call td last msgs with
        | error e =>
          rw [hh] at h
          exact Except.noConfusion h
        | ok pr =>
          obtain ⟨item, messages2⟩ := pr
          simp only [hh] at h
          cases hr : call_and_run_tools td model fuel messages2 with
          | error e =>
            rw [hr] at h
            exact Except.noConfusion h
          | ok r2 =>
            rw [hr] at h
            injection h with h2
            subst h2
            obtain ⟨hmsgs2, -⟩ := handle_tool_call_ok hh
            subst hmsgs2
            obtain ⟨ihlen, ihev, ihfalse, ihtrue⟩ := ih td model (msgs ++ [item]) r2 hr
            refine ⟨?_, ?_, ?_, ihtrue⟩
            · simp only [List.length_append, List.length_cons, List.length_nil] at ihlen ⊢
              omega
            · simp only [List.length_cons]
              omega
            · intro hfalse
              exact lastOpt_cons_of _ (ihfalse hfalse)
      | modelCall =>
        rw [call_run_model_step td model fuel msgs last hl hc] at h
        cases hr : call_and_run_tools td model fuel
            (msgs ++ [toMsg (model msgs (get_tool_specs td))]) with
        | error e =>
          rw [hr] at h
          exact Except.noConfusion h
        | ok r2 =>
          rw [hr] at h
          injection h with h2
          subst h2
          obtain ⟨ihlen, ihev, ihfalse, ihtrue⟩ := ih td model _ r2 hr
          refine ⟨?_, ?_, ?_, ihtrue⟩
          · simp only [List.length_append, List.length_cons, List.length_nil] at ihlen ⊢
            omega
          · simp only [List.length_cons]
            omega
          · intro hfalse
            exact lastOpt_cons_of _ (ihfalse hfalse)

/-- The pairing invariant is preserved by every successful loop run: from a
well-paired history (with no assistant-roled function call), the resulting
history is well paired, and an early (assistant-terminated) return leaves
no unresolved `function_call`. -/
theorem run_wf_aux : ∀ (fuel : Nat) (td : List (String × ToolInfo))
    (model : List Msg → List Json → ModelOutput) (msgs : List Msg) (r : RunResult),
    wfChain msgs → assistantNotFc msgs →
    call_and_run_tools td model fuel msgs = .ok r →
    wfChain r.messages ∧ assistantNotFc r.messages ∧
      (r.early = true → noPendingCall r.messages) := by
  intro fuel
  induction fuel with
  | zero =>
    intro td model msgs r hwf hanf h
    rw [call_run_zero] at h
    injection h with h2
    subst h2
    exact ⟨hwf, hanf, fun hearly => absurd hearly (by simp)⟩
  | succ fuel ih =>
    intro td model msgs r hwf hanf h
    cases hl : lastOpt msgs with
    | none =>
      rw [call_run_none td model fuel msgs hl] at h
      exact Except.noConfusion h
    | some last =>
      cases hc : classify last with
      | halt =>
        rw [call_run_halt td model fuel msgs last hl hc] at h
        injection h with h2
        subst h2
        refine ⟨hwf, hanf, fun _ => ?_⟩
        unfold noPendingCall
        cases hscan : chainScan msgs with
        | clean => rfl
        | bad => exact absurd hscan hwf
        | pending c =>
          obtain ⟨m2, hm2l, hm2t, -⟩ := chainScan_pending_last msgs c hscan
          rw [hl] at hm2l
          injection hm2l with hm2l
          subst hm2l
          exact absurd ⟨classify_halt hc, hm2t⟩ (hanf last (lastOpt_mem msgs last hl))
      | tool =>
        rw [call_run_tool td model fuel msgs last hl hc] at h
        cases hh : handle_tool_call td last msgs with
        | error e =>
          rw [hh] at h
          exact Except.noConfusion h
        | ok pr =>
          obtain ⟨item, messages2⟩ := pr
          simp only [hh] at h
          cases hr : call_and_run_tools td model fuel messages2 with
          | error e =>
            rw [hr] at h
            exact Except.noConfusion h
          | ok r2 =>
            rw [hr] at h
            injection h with h2
            subst h2
            obtain ⟨hmsgs2, cid, result, hcid, hitem⟩ := handle_tool_call_ok hh
            subst hmsgs2
            obtain ⟨-, htool_type⟩ := classify_tool hc
            have hpend : chainScan msgs = .pending last.call_id :=
              chainScan_last_fc msgs last hl htool_type hwf
            have hcond : item.type = some ("function_call_output") ∧
                item.call_id = last.call_id := by
              subst hitem
              exact ⟨rfl, by simp [create_function_call_output_item, hcid]⟩
            have hscan2 : chainScan (msgs ++ [item]) = ChainSt.clean := by
              rw [chainScan_append, hpend]
              simp only [chainStep]
              rw [if_pos hcond]
            have hwf2 : wfChain (msgs ++ [item]) := by
              unfold wfChain
              rw [hscan2]
              exact fun hx => ChainSt.noConfusion hx
            have hanf2 : assistantNotFc (msgs ++ [item]) := by
              intro m hm
              rcases List.mem_append.mp hm with hm1 | hm2
              · exact hanf m hm1
              · simp only [List.mem_singleton] at hm2
                subst hm2
                subst hitem
                intro hco
                exact absurd hco.2 (by simp [create_function_call_output_item])
            exact ih td model (msgs ++ [item]) r2 hwf2 hanf2 hr
      | modelCall =>
        rw [call_run_model_step td model fuel msgs last hl hc] at h
        cases hr : call_and_run_tools td model fuel
            (msgs ++ [toMsg (model msgs (get_tool_specs td))]) with
        | error e =>
          rw [hr] at h
          exact Except.noConfusion h
        | ok r2 =>
          rw [hr] at h
          injection h with h2
          subst h2
          obtain ⟨-, hmtype⟩ := classify_model hc
          have hclean : chainScan msgs = ChainSt.clean := by
            cases hscan : chainScan msgs with
            | clean => rfl
            | bad => exact absurd hscan hwf
            | pending c =>
              obtain ⟨m2, hm2l, hm2t, -⟩ := chainScan_pending_last msgs c hscan
              rw [hl] at hm2l
              injection hm2l with hm2l
              subst hm2l
              exact absurd hm2t hmtype
          have hshape := toMsg_shape (model msgs (get_tool_specs td))
          have hwf2 : wfChain (msgs ++ [toMsg (model msgs (get_tool_specs td))]) := by
            unfold wfChain
            rw [chainScan_append, hclean]
            simp only [chainStep]
            split
            case isTrue => exact fun hx => ChainSt.noConfusion hx
            case isFalse =>
              split
              case isTrue h2 => exact absurd h2 hshape.1
              case isFalse => exact fun hx => ChainSt.noConfusion hx
          have hanf2 : assistantNotFc (msgs ++ [toMsg (model msgs (get_tool_specs td))]) := by
            intro m hm
            rcases List.mem_append.mp hm with hm1 | hm2
            · exact hanf m hm1
            · simp only [List.mem_singleton] at hm2
              subst hm2
              exact hshape.2
          exact ih td model _ r2 hwf2 hanf2 hr

/-- A nonempty list has a last element. -/
theorem lastOpt_cons_isSome {α : Type} : ∀ (a : α) (l : List α), ∃ x, lastOpt (a :: l) = some x
  | a, [] => ⟨a, rfl⟩
  | _, b :: t => lastOpt_cons_isSome b t

/-- Lookup after a Python-dict insertion. -/
theorem lookupKV_insertKV {α : Type} :
    ∀ (d : List (String × α)) (k : String) (v : α) (q : String),
    lookupKV (insertKV d k v) q = if k = q then some v else lookupKV d q := by
  intro d k v q
  induction d with
  | nil => rfl
  | cons p rest ih =>
    obtain ⟨k0, v0⟩ := p
    by_cases h0 : k0 = k
    · subst h0
      simp only [insertKV, if_pos rfl, lookupKV]
      by_cases hq : k0 = q <;> simp [lookupKV, hq]
    · simp only [insertKV, if_neg h0, lookupKV]
      by_cases hq : k0 = q
      · subst hq
        have hkq : ¬(k = k0) := fun hx => h0 hx.symm
        simp [hkq]
      · simp only [if_neg hq, ih]

/-- Lookup in the dict-comprehension registry: the last descriptor with the
queried name wins; names absent from the list fall through to the
accumulator. -/
theorem lookupKV_build : ∀ (ts : List ToolInfo) (acc : List (String × ToolInfo)) (k : String),
    lookupKV (ts.foldl (fun d t => insertKV d t.name t) acc) k =
      (match lastWithName ts k with
       | some u => some u
       | none => lookupKV acc k) := by
  intro ts
  induction ts with
  | nil => intro acc k; rfl
  | cons t ts ih =>
    intro acc k
    simp only [List.foldl_cons]
    rw [ih]
    cases hlast : lastWithName ts k with
    | some u =>
      simp only [lastWithName, hlast]
    | none =>
      simp only [lastWithName, hlast]
      rw [lookupKV_insertKV]
      by_cases hname : t.name = k
      · simp only [if_pos hname]
      · simp only [if_neg hname]

/-- Behaviour of `handle_tool_call` on a well-formed function-call item
whose arguments are already a mapping: whatever string the tool's `exec_fn`
returns — success value or reported error text alike — is appended as the
single tool-result item, and no exception path is taken. -/
theorem handle_tool_call_run (td : List (String × ToolInfo)) (id0 call_id name : String)
    (kwargs : List (String × Json)) (t : ToolInfo) (msgs : List Msg)
    (hlook : lookupKV td name = some t) :
    handle_tool_call td (create_function_call_item id0 call_id name (RawArgs.dict kwargs)) msgs =
      .ok (create_function_call_output_item call_id (t.exec_fn kwargs),
           msgs ++ [create_function_call_output_item call_id (t.exec_fn kwargs)]) := by
  have h1 : handle_tool_call td (create_function_call_item id0 call_id name (RawArgs.dict kwargs)) msgs =
      (match lookupKV td name with
       | none => .error (.UnknownToolError name)
       | some tool =>
         .ok (create_function_call_output_item call_id (tool.exec_fn kwargs),
              msgs ++ [create_function_call_output_item call_id (tool.exec_fn kwargs)])) := rfl
  rw [h1, hlook]

/-- A history with no tool-call traffic scans clean. -/
theorem plain_chainScan : ∀ (msgs : List Msg), plainHistory msgs →
    chainScan msgs = ChainSt.clean := by
  intro msgs
  induction msgs using List.reverseRecOn with
  | nil => intro _; rfl
  | append_singleton l a ih =>
    intro hplain
    have hl : plainHistory l := fun m hm => hplain m (List.mem_append_left _ hm)
    have ha := hplain a (List.mem_append_right _ (List.mem_singleton_self a))
    rw [chainScan_append, ih hl]
    simp [chainStep, ha.1, ha.2]

/-- A history with no tool-call traffic has no assistant-roled function
call either. -/
theorem plain_assistantNotFc (msgs : List Msg) (hplain : plainHistory msgs) :
    assistantNotFc msgs :=
  fun m hm hco => absurd hco.2 (hplain m hm).1

/-- Claim C1, amended: for every sequence of model responses and every
iteration cap `max_iter`, `call_and_run_tools` terminates within `max_iter`
loop iterations, appending at most `max_iter` messages and yielding at most
`max_iter + 1` items; the run either ends early because the last message is
an assistant message, or propagates a tool-call resolution error
(unparseable arguments / unknown tool), or yields the synthesized
"Max iterations reached. Stopping." item as its final event. -/
theorem C1_termination_amended : ∀ (td : List (String × ToolInfo))
    (model : List Msg → List Json → ModelOutput) (max_iter : Nat) (msgs : List Msg),
    (∃ e, call_and_run_tools td model max_iter msgs = .error e) ∨
    (∃ r, call_and_run_tools td model max_iter msgs = .ok r ∧
      r.messages.length ≤ msgs.length + max_iter ∧
      r.events.length ≤ max_iter + 1 ∧
      (r.early = false → lastOpt r.events = some (Event.output_item_done max_iter_item)) ∧
      (r.early = true → ∃ lm, lastOpt r.messages = some lm ∧
        lm.role = some ("assistant"))) := by
  intro td model n msgs
  cases h : call_and_run_tools td model n msgs with
  | error e => exact Or.inl ⟨e, rfl⟩
  | ok r => exact Or.inr ⟨r, rfl, run_total_spec n td model msgs r h⟩

/-- Counterexample to claim C1 as stated: with the default cap of 20 and a
model that always requests a tool call whose arguments defeat every parsing
strategy, the generator raises (`json.JSONDecodeError`) instead of yielding
the synthesized terminal message — so for this sequence of model responses
the loop does fail rather than emit the fallback item. -/
theorem C1_counterexample :
    call_and_run_tools exB_tools bad_model 20 [user0] =
      .error (.ArgumentParseError ("not json")) := rfl

/-- Claim C2: on each iteration the loop dispatches solely on the last
message: an assistant `role` stops the turn with the history unchanged; a
`function_call` type is resolved via the parser and registry, appending
exactly one tool-result item before continuing; anything else invokes the
completion client on the full history plus the tool specs, appending
exactly one aggregated message before continuing. -/
theorem C2_dispatch : ∀ (td : List (String × ToolInfo))
    (model : List Msg → List Json → ModelOutput) (fuel : Nat)
    (msgs : List Msg) (last : Msg),
    lastOpt msgs = some last →
    ((last.role = some ("assistant") →
       call_and_run_tools td model (fuel + 1) msgs = .ok ⟨[], msgs, true⟩) ∧
     (last.role ≠ some ("assistant") → last.type = some ("function_call") →
       ∀ item messages2, handle_tool_call td last msgs = .ok (item, messages2) →
         messages2 = msgs ++ [item] ∧
         item.type = some ("function_call_output") ∧
         call_and_run_tools td model (fuel + 1) msgs =
           (match call_and_run_tools td model fuel (msgs ++ [item]) with
            | .error e => .error e
            | .ok r => .ok ⟨Event.output_item_done item :: r.events,
                r.messages, r.early⟩)) ∧
     (last.role ≠ some ("assistant") → last.type ≠ some ("function_call") →
       call_and_run_tools td model (fuel + 1) msgs =
         (match call_and_run_tools td model fuel
             (msgs ++ [toMsg (model msgs (get_tool_specs td))]) with
          | .error e => .error e
          | .ok r => .ok ⟨Event.output_item_done
              (toMsg (model msgs (get_tool_specs td))) :: r.events,
              r.messages, r.early⟩))) := by
  intro td model fuel msgs last hl
  refine ⟨?_, ?_, ?_⟩
  · intro hrole
    exact call_run_halt td model fuel msgs last hl (by simp [classify, hrole])
  · intro hrole htype item messages2 hh
    obtain ⟨hm2, cid, result, hcid, hitem⟩ := handle_tool_call_ok hh
    subst hm2
    refine ⟨rfl, by subst hitem; rfl, ?_⟩
    rw [call_run_tool td model fuel msgs last hl (by simp [classify, hrole, htype])]
    simp only [hh]
  · intro hrole htype
    exact call_run_model_step td model fuel msgs last hl
      (by simp [classify, hrole, htype])

/-- Witness for C2: a history ending in an assistant message makes the loop
stop at once, with no events and an unchanged history. -/
theorem C2_dispatch_witness :
    call_and_run_tools exB_tools text_model 1 [user0, text_item] =
      .ok ⟨[], [user0, text_item], true⟩ :=
  (C2_dispatch exB_tools text_model 0 [user0, text_item] text_item rfl).1 rfl

/-- Claim C3: `_safe_parse_tool_arguments` passes mappings through
unchanged; a string holding one JSON object parses to that object; on
primary-parse failure the `"}{"`-split (last object wins), the
array-wrapping fallback, and the balanced-brace extraction are attempted in
order; and when everything fails the result is an `ArgumentParseError`
carrying the offending string. -/
theorem C3_argument_parsing :
    (∀ d, _safe_parse_tool_arguments (RawArgs.dict d) = .ok (Json.obj d)) ∧
    _safe_parse_tool_arguments (.str ("\x7b\"a\":1\x7d")) =
      .ok (Json.obj [("a", Json.num 1 0)]) ∧
    _safe_parse_tool_arguments (.str ("\x7b\"a\":1\x7d\x7b\"a\":2\x7d")) =
      .ok (Json.obj [("a", Json.num 2 0)]) ∧
    _safe_parse_tool_arguments (.str ("\x7b\"a\":1\x7d\x7b\"b\":\"\x7d\x7b\"\x7d")) =
      .ok (Json.obj [("b", Json.str ("\x7d,\x7b"))]) ∧
    _safe_parse_tool_arguments (.str ("\x7b\"a\":1\x7d x")) =
      .ok (Json.obj [("a", Json.num 1 0)]) ∧
    _safe_parse_tool_arguments (.str ("not json")) = .error ("not json") :=
  ⟨fun _ => rfl, rfl, rfl, rfl, rfl, rfl⟩

/-- Claim C4: a registered tool that reports failure by returning an error
string never raises — `handle_tool_call` succeeds, appends that very string
as the single tool-result item, and the resulting last message dispatches
the loop to another model call. -/
theorem C4_soft_tool_failure : ∀ (td : List (String × ToolInfo))
    (id0 call_id name errText : String) (kwargs : List (String × Json))
    (t : ToolInfo) (msgs : List Msg),
    lookupKV td name = some t →
    t.exec_fn kwargs = errText →
    (handle_tool_call td (create_function_call_item id0 call_id name (RawArgs.dict kwargs)) msgs =
      .ok (create_function_call_output_item call_id errText,
           msgs ++ [create_function_call_output_item call_id errText])) ∧
    classify (create_function_call_output_item call_id errText) = .modelCall := by
  intro td id0 call_id name errText kwargs t msgs hlook hexec
  constructor
  · rw [handle_tool_call_run td id0 call_id name kwargs t msgs hlook, hexec]
  · rfl

/-- Witness for C4: the `failing` tool's error string is appended verbatim
as the tool result and the loop proceeds to a model call. -/
theorem C4_soft_tool_failure_witness :
    (handle_tool_call (build_tools_dict [fail_tool])
        (create_function_call_item ("id0") ("call-9") ("failing") (RawArgs.dict [])) [user0] =
      .ok (create_function_call_output_item ("call-9") ("ERROR: unknown team code"),
           [user0, create_function_call_output_item ("call-9") ("ERROR: unknown team code")])) ∧
    classify (create_function_call_output_item ("call-9") ("ERROR: unknown team code")) =
      .modelCall :=
  C4_soft_tool_failure (build_tools_dict [fail_tool]) ("id0") ("call-9") ("failing")
    ("ERROR: unknown team code") [] fail_tool [user0] rfl rfl

/-- Claim C5, amended: in every history produced by the loop from a plain
(system/user) starting history, each `function_call_output` immediately
follows the `function_call` whose `call_id` it matches with nothing
interleaved, and a turn that ended early on an assistant message leaves no
`function_call` unresolved.  (At the iteration cap, however, the final
message may be an unresolved `function_call`.) -/
theorem C5_pairing_amended : ∀ (td : List (String × ToolInfo))
    (model : List Msg → List Json → ModelOutput) (fuel : Nat)
    (msgs : List Msg) (r : RunResult),
    plainHistory msgs →
    call_and_run_tools td model fuel msgs = .ok r →
    wfChain r.messages ∧ (r.early = true → noPendingCall r.messages) := by
  intro td model fuel msgs r hplain h
  have hwf : wfChain msgs := by
    unfold wfChain
    rw [plain_chainScan msgs hplain]
    exact fun hx => ChainSt.noConfusion hx
  obtain ⟨h1, -, h3⟩ := run_wf_aux fuel td model msgs r hwf (plain_assistantNotFc msgs hplain) h
  exact ⟨h1, h3⟩

/-- Witness for C5: an assistant-terminated run from a plain history is
well paired with nothing pending. -/
theorem C5_pairing_amended_witness :
    wfChain [user0, text_item] ∧ (true = true → noPendingCall [user0, text_item]) :=
  C5_pairing_amended exB_tools text_model 5 [user0]
    ⟨[Event.output_item_done text_item], [user0, text_item], true⟩
    (by unfold plainHistory; decide) rfl

/-- Counterexample to claim C5 as stated: reaching the iteration cap right
after the model requested a tool call is a terminal state (the generator
finishes, yielding the synthesized cap item), yet the final history ends in
a `function_call` with no corresponding tool result. -/
theorem C5_counterexample :
    call_and_run_tools exB_tools exB_model 1 [user0] =
      .ok ⟨[Event.output_item_done exB_fc, Event.output_item_done max_iter_item],
           [user0, exB_fc], false⟩ ∧
    ¬ noPendingCall [user0, exB_fc] := ⟨rfl, by unfold noPendingCall; decide⟩

/-- Claim C6: every run of `predict_stream_local` yields exactly one
terminal event — `done` with the trace id on normal completion, `error`
with the exception text otherwise — and it is the last event yielded. -/
theorem C6_terminal_event : ∀ (inner : List InnerEvent) (ending : Option String)
    (tid : Option String),
    ((predict_stream_local inner ending tid).filter isTerminalEvent).length = 1 ∧
    lastOpt (predict_stream_local inner ending tid) = some (terminalOf ending tid) ∧
    isTerminalEvent (terminalOf ending tid) = true := by
  intro inner ending tid
  refine ⟨?_, lastOpt_concat _ _, terminalOf_terminal ending tid⟩
  unfold predict_stream_local
  rw [List.filter_append, renderAll_filter_terminal]
  simp [List.filter, terminalOf_terminal ending tid]

/-- Claim C7, amended: with cap 3 and a model that never returns assistant
text and always requests the same tool, each round-trip costs two loop
iterations, so the run makes two model calls but completes only one tool
round-trip — the final requested call is left pending — and then yields the
synthesized "Max iterations reached. Stopping." terminal item. -/
theorem C7_scenarioB_amended :
    call_and_run_tools exB_tools exB_model 3 [user0] =
      .ok ⟨[Event.output_item_done exB_fc, Event.output_item_done exB_out,
            Event.output_item_done exB_fc, Event.output_item_done max_iter_item],
           [user0, exB_fc, exB_out, exB_fc], false⟩ := rfl

/-- Counterexample to claim C7 as stated: the scenario-B run with cap 3
appends exactly one tool-result message, not three — a tool round-trip
consumes two loop iterations, so cap 3 cannot hold three round-trips. -/
theorem C7_counterexample :
    call_and_run_tools exB_tools exB_model 3 [user0] =
      .ok ⟨[Event.output_item_done exB_fc, Event.output_item_done exB_out,
            Event.output_item_done exB_fc, Event.output_item_done max_iter_item],
           [user0, exB_fc, exB_out, exB_fc], false⟩ ∧
    ([user0, exB_fc, exB_out, exB_fc].filter
        (fun m => m.type = some ("function_call_output"))).length = 1 ∧
    (1 : Nat) ≠ 3 := ⟨rfl, by decide, by decide⟩

/-- Claim C8, amended: `ToolCallingAgent.__init__` builds its registry with
a plain dict comprehension, so construction from a list containing two
descriptors with the same name silently succeeds and the last descriptor
with each name wins; no `DuplicateToolError` exists or is raised. -/
theorem C8_registry_amended : ∀ (tools : List ToolInfo) (name : String),
    lookupKV (build_tools_dict tools) name =
      (match lastWithName tools name with
       | some u => some u
       | none => none) := by
  intro tools name
  unfold build_tools_dict
  rw [lookupKV_build]
  cases lastWithName tools name <;> rfl

/-- Counterexample to claim C8 as stated: constructing the registry from
two descriptors named `dup` does not fail — it silently keeps only the
second one, whose execution function answers `"two"`. -/
theorem C8_counterexample :
    build_tools_dict [dup_tool_a, dup_tool_b] = [("dup", dup_tool_b)] ∧
    (match lookupKV (build_tools_dict [dup_tool_a, dup_tool_b]) ("dup") with
     | some t => t.exec_fn []
     | none => "absent") = "two" ∧
    ("two" : String) ≠ "one" := ⟨rfl, rfl, by decide⟩

/-- Claim C9, amended: `start_new_session` always resets the conversation
history to empty (also when a session id is reused), returns a caller
supplied session id verbatim when it is non-empty and otherwise the freshly
generated UUID (Python truthiness: an empty string also triggers
generation), and `get_current_session_id` returns the last-started id —
`none` on an agent that has started no session. -/
theorem C9_sessions_amended : ∀ (st : SessionState) (sid : Option String)
    (uid : Option String) (gen : String),
    (start_new_session st sid uid gen).2.conversation_history = [] ∧
    get_current_session_id (start_new_session st sid uid gen).2 =
      some (start_new_session st sid uid gen).1 ∧
    (∀ s : String, (start_new_session st (some s) uid gen).1 =
      if s = "" then gen else s) ∧
    (start_new_session st none uid gen).1 = gen ∧
    get_current_session_id init_session_state = none := by
  intro st sid uid gen
  refine ⟨rfl, rfl, ?_, rfl, rfl⟩
  intro s
  by_cases hs : s = "" <;> simp [start_new_session, hs]

/-- Counterexample to claim C9 as stated: a caller-supplied empty-string
session id is not preserved verbatim — `session_id if session_id else
str(uuid4())` is falsy on `""`, so a generated id is returned instead. -/
theorem C9_counterexample :
    (start_new_session init_session_state (some ("")) none ("gen-uuid-1")).1 =
      "gen-uuid-1" ∧
    ("gen-uuid-1" : String) ≠ "" := ⟨rfl, by decide⟩

/-- Claim C10: the last-message inspection happens only at the start of
each of the `max_iter` iterations and never after the last one, so a run
that exhausts its iterations always ends with the synthesized cap item —
in particular, when the model call of the final permitted iteration
appends a terminal assistant text message, the generator still yields the
"Max iterations reached. Stopping." item afterwards and the turn ends with
two terminal assistant messages. -/
theorem C10_post_loop_yield :
    (∀ (td : List (String × ToolInfo)) (model : List Msg → List Json → ModelOutput)
       (fuel : Nat) (msgs : List Msg) (r : RunResult),
       call_and_run_tools td model fuel msgs = .ok r → r.early = false →
       lastOpt r.events = some (Event.output_item_done max_iter_item)) ∧
    (∀ (td : List (String × ToolInfo)) (model : List Msg → List Json → ModelOutput)
       (msgs : List Msg) (last : Msg) (t i : String),
       lastOpt msgs = some last →
       last.role ≠ some ("assistant") →
       last.type ≠ some ("function_call") →
       model msgs (get_tool_specs td) = .text t i →
       call_and_run_tools td model 1 msgs =
         .ok ⟨[Event.output_item_done (create_text_output_item t i),
               Event.output_item_done max_iter_item],
              msgs ++ [create_text_output_item t i], false⟩) := by
  constructor
  · intro td model fuel msgs r h hf
    exact (run_total_spec fuel td model msgs r h).2.2.1 hf
  · intro td model msgs last t i hl hrole htype hmodel
    rw [call_run_model_step td model 0 msgs last hl (by simp [classify, hrole, htype]),
      hmodel]
    rw [call_run_zero]
    rfl

/-- Witness for C10: with cap 1 and a model answering assistant text at
once, the run yields the assistant item and then the synthesized cap item —
two terminal assistant messages. -/
theorem C10_post_loop_yield_witness :
    call_and_run_tools exB_tools text_model 1 [user0] =
      .ok ⟨[Event.output_item_done text_item, Event.output_item_done max_iter_item],
           [user0, text_item], false⟩ :=
  C10_post_loop_yield.2 exB_tools text_model [user0] user0 ("Done.") ("t-id")
    rfl (by decide) (by decide) rfl
